import Mathlib

/-!
Verification of the tcg-analysis evaluation core: output normalization,
confusion-matrix classification and aggregation, derived metrics, the
sandboxed execution verdict logic, and the prompt-side text utilities.
-/

namespace Tcg

/-- Whitespace predicate matching Python str semantics for ASCII text. -/
def pyIsSpace (c : Char) : Bool :=
  c = ' ' || c = '\t' || c = '\n' || c = '\r' || c = '\x0B' || c = '\x0C'

/-- Characters of a string with leading and trailing whitespace removed
(Python str.strip). -/
def stripChars (l : List Char) : List Char :=
  ((l.dropWhile pyIsSpace).reverse.dropWhile pyIsSpace).reverse

/-- Python str.strip on strings. -/
def pyStrip (s : String) : String := ⟨stripChars s.data⟩

/-- ASCII lowercasing of a string (Python str.lower on ASCII text). -/
def pyLower (s : String) : String := ⟨s.data.map Char.toLower⟩

/-- Modelled from the spec: the sentinel vocabulary of
confusion_matrix_utils.py (file absent from src/), spec section 4.3 and the
design note on the global sentinel vocabulary. -/
def NA_VALUES : List String := ["n/a", "na", "none", "null", "error"]

/-- Modelled from the spec: normalize_output of confusion_matrix_utils.py
(absent from src/), the light-trim policy of section 4.3: strip leading and
trailing whitespace, lowercase, and map sentinel values (case-insensitively)
to the empty string; absent text normalizes to the empty string. -/
def normalize_output (text : Option String) : String :=
  match text with
  | none => ""
  | some s =>
    let t := pyLower (pyStrip s)
    if t ∈ NA_VALUES then "" else t

/-- Modelled from the spec: is_empty_or_error of confusion_matrix_utils.py
(absent from src/): true iff light-trim normalization yields the empty
string. -/
def is_empty_or_error (text : Option String) : Bool :=
  normalize_output text == ""

/-- The four classification categories of the confusion-matrix classifier. -/
inductive Category where
  | tp
  | tn
  | fp
  | fn
deriving DecidableEq

/-- Modelled from the spec: the per-pair classification rule of
confusion_matrix_utils.py (absent from src/), spec section 4.4, applied after
light-trim normalization of both sides. -/
def classify (expected generated : String) : Category :=
  let e := normalize_output (some expected)
  let g := normalize_output (some generated)
  if e = "" then
    if g = "" then .tn else .fp
  else
    if g = "" then .fn
    else if g = e then .tp else .fp

/-- The four counters of a confusion matrix (ConfusionMatrix of
data_structures.py, absent from src/; modelled from spec section 3). -/
structure ConfusionMatrix where
  true_positives : Nat
  true_negatives : Nat
  false_positives : Nat
  false_negatives : Nat
deriving DecidableEq

/-- The all-zero confusion matrix. -/
def cmZero : ConfusionMatrix := ⟨0, 0, 0, 0⟩

/-- Elementwise addition of confusion matrices (modelled from spec
section 3). -/
def cmAdd (a b : ConfusionMatrix) : ConfusionMatrix :=
  ⟨a.true_positives + b.true_positives,
   a.true_negatives + b.true_negatives,
   a.false_positives + b.false_positives,
   a.false_negatives + b.false_negatives⟩

/-- Tally one classification category into a confusion matrix. -/
def tally (cm : ConfusionMatrix) : Category → ConfusionMatrix
  | .tp => { cm with true_positives := cm.true_positives + 1 }
  | .tn => { cm with true_negatives := cm.true_negatives + 1 }
  | .fp => { cm with false_positives := cm.false_positives + 1 }
  | .fn => { cm with false_negatives := cm.false_negatives + 1 }

/-- Modelled from the spec: calculate_confusion_matrix_stats of
confusion_matrix_utils.py (absent from src/): fail fast with the
invalid-input error on a length mismatch, otherwise fold the section 4.4
classification rule over the paired sequences. -/
def calculate_confusion_matrix_stats (expected generated : List String) :
    Except String ConfusionMatrix :=
  if expected.length ≠ generated.length then
    .error "expected and generated must have the same length"
  else
    .ok ((expected.zip generated).foldl (fun cm p => tally cm (classify p.1 p.2)) cmZero)

/-- Total number of classified samples. -/
def total_samples (cm : ConfusionMatrix) : Nat :=
  cm.true_positives + cm.true_negatives + cm.false_positives + cm.false_negatives

/-- Modelled from the spec: the accuracy property of ConfusionMatrix in
data_structures.py (absent from src/), with the zero-denominator fallback
to 0.0 (spec section 3). -/
def accuracy (cm : ConfusionMatrix) : ℚ :=
  if total_samples cm = 0 then 0
  else ((cm.true_positives + cm.true_negatives : Nat) : ℚ) / (total_samples cm : ℚ)

/-- Modelled from the spec: precision with zero-denominator fallback. -/
def precision (cm : ConfusionMatrix) : ℚ :=
  if cm.true_positives + cm.false_positives = 0 then 0
  else (cm.true_positives : ℚ) / ((cm.true_positives + cm.false_positives : Nat) : ℚ)

/-- Modelled from the spec: the recall metric with zero-denominator fallback. -/
def recallOf (cm : ConfusionMatrix) : ℚ :=
  if cm.true_positives + cm.false_negatives = 0 then 0
  else (cm.true_positives : ℚ) / ((cm.true_positives + cm.false_negatives : Nat) : ℚ)

/-- Modelled from the spec: specificity with zero-denominator fallback. -/
def specificity (cm : ConfusionMatrix) : ℚ :=
  if cm.true_negatives + cm.false_positives = 0 then 0
  else (cm.true_negatives : ℚ) / ((cm.true_negatives + cm.false_positives : Nat) : ℚ)

/-- Modelled from the spec: the F1 score with zero-denominator fallback. -/
def f1_score (cm : ConfusionMatrix) : ℚ :=
  if precision cm + recallOf cm = 0 then 0
  else 2 * precision cm * recallOf cm / (precision cm + recallOf cm)

/-- Modelled from the spec: calculate_aggregate_stats of
confusion_matrix_utils.py (absent from src/): elementwise sum over the
responses, where a response lacking a confusion matrix contributes zero to
every counter (spec section 4.5). -/
def calculate_aggregate_stats (responses : List (Option ConfusionMatrix)) : ConfusionMatrix :=
  responses.foldl
    (fun acc r =>
      match r with
      | some cm => cmAdd acc cm
      | none => acc)
    cmZero

theorem mk_nil_eq_empty : (⟨[]⟩ : String) = "" := rfl

theorem dropWhileRev_decomp (p : Char → Bool) (d : List Char) :
    d = ((d.reverse.dropWhile p).reverse : List Char) ++ (d.reverse.takeWhile p).reverse := by
  have h := List.takeWhile_append_dropWhile p d.reverse
  conv_lhs => rw [← List.reverse_reverse d, ← h]
  rw [List.reverse_append]

theorem stripChars_decomp (l : List Char) :
    ∃ a b, l = a ++ stripChars l ++ b ∧
      (∀ c ∈ a, pyIsSpace c = true) ∧ (∀ c ∈ b, pyIsSpace c = true) := by
  refine ⟨l.takeWhile pyIsSpace,
    ((l.dropWhile pyIsSpace).reverse.takeWhile pyIsSpace).reverse, ?_, ?_, ?_⟩
  · conv_lhs => rw [← List.takeWhile_append_dropWhile pyIsSpace l]
    rw [List.append_assoc]
    congr 1
    exact dropWhileRev_decomp pyIsSpace (l.dropWhile pyIsSpace)
  · intro c hc
    exact List.mem_takeWhile_imp hc
  · intro c hc
    rw [List.mem_reverse] at hc
    exact List.mem_takeWhile_imp hc

theorem stripChars_eq_nil (l : List Char) (h : ∀ c ∈ l, pyIsSpace c = true) :
    stripChars l = [] := by
  unfold stripChars
  rw [List.dropWhile_eq_nil_iff.mpr h]
  rfl

theorem pyStrip_of_all_space (s : String) (h : ∀ c ∈ s.data, pyIsSpace c = true) :
    pyStrip s = "" := by
  unfold pyStrip
  rw [stripChars_eq_nil s.data h]

/-- C1: for every pair of equal-length sequences, each pair receives (after
light-trim normalization of both sides) exactly one category following the
five-case rule of spec section 4.4, and the scenario expected=[1,2,3],
generated=[1,99,3] yields tp=2, fp=1, fn=0, tn=0. -/
theorem classify_rule (e g : String) :
    (normalize_output (some e) = "" → normalize_output (some g) = "" →
      classify e g = .tn) ∧
    (normalize_output (some e) = "" → normalize_output (some g) ≠ "" →
      classify e g = .fp) ∧
    (normalize_output (some e) ≠ "" → normalize_output (some g) = normalize_output (some e) →
      classify e g = .tp) ∧
    (normalize_output (some e) ≠ "" → normalize_output (some g) = "" →
      classify e g = .fn) ∧
    (normalize_output (some e) ≠ "" → normalize_output (some g) ≠ "" →
      normalize_output (some g) ≠ normalize_output (some e) → classify e g = .fp) ∧
    calculate_confusion_matrix_stats ["1", "2", "3"] ["1", "99", "3"] =
      .ok ⟨2, 0, 1, 0⟩ := by
  refine ⟨?_, ?_, ?_, ?_, ?_, by rfl⟩
  · intro he hg
    simp [classify, he, hg]
  · intro he hg
    simp [classify, he, hg]
  · intro he hge
    simp [classify, he, hge]
  · intro he hg
    simp [classify, he, hg]
  · intro he hg hne
    simp [classify, he, hg, hne]

/-- C1 witness: the TP clause applied at the concrete pair (1, 1). -/
theorem classify_rule_witness :
    normalize_output (some "1") ≠ "" ∧ classify "1" "1" = .tp := by
  refine ⟨by decide, (classify_rule "1" "1").2.2.1 (by decide) rfl⟩

/-- C4: light-trim normalization strips only leading/trailing whitespace and
lowercases (internal whitespace untouched), maps every sentinel (detected
case-insensitively on the stripped, lowercased text) to the empty string, and
is_empty_or_error holds iff light-trim normalization yields the empty string,
covering absent text, whitespace-only text, and every sentinel value. -/
theorem normalize_output_light_trim :
    (∀ s : String, pyLower (pyStrip s) ∉ NA_VALUES →
      normalize_output (some s) = pyLower (pyStrip s)) ∧
    (∀ s : String, ∃ a b, s.data = a ++ (pyStrip s).data ++ b ∧
      (∀ c ∈ a, pyIsSpace c = true) ∧ (∀ c ∈ b, pyIsSpace c = true)) ∧
    (∀ s : String, (pyLower s).data = s.data.map Char.toLower) ∧
    (∀ s : String, pyLower (pyStrip s) ∈ NA_VALUES → normalize_output (some s) = "") ∧
    (∀ t : Option String, is_empty_or_error t = true ↔ normalize_output t = "") ∧
    is_empty_or_error none = true ∧
    (∀ s : String, (∀ c ∈ s.data, pyIsSpace c = true) → is_empty_or_error (some s) = true) ∧
    (∀ v ∈ NA_VALUES, is_empty_or_error (some v) = true) ∧
    normalize_output (some "  Hello  World  \n") = "hello  world" ∧
    is_empty_or_error (some "N/A") = true ∧
    is_empty_or_error (some "42") = false := by
  refine ⟨?_, ?_, ?_, ?_, ?_, by decide, ?_, ?_, by decide, by decide, by decide⟩
  · intro s h
    simp [normalize_output, h]
  · intro s
    exact stripChars_decomp s.data
  · intro s
    rfl
  · intro s h
    simp [normalize_output, h]
  · intro t
    simp [is_empty_or_error]
  · intro s h
    have h1 : pyStrip s = "" := pyStrip_of_all_space s h
    simp [is_empty_or_error, normalize_output, h1]
    decide
  · intro v hv
    simp [NA_VALUES] at hv
    rcases hv with rfl | rfl | rfl | rfl | rfl <;> decide

/-- C4 witness: the strip-and-lowercase clause at a non-sentinel input and
the whitespace clause at a whitespace-only input. -/
theorem normalize_output_light_trim_witness :
    normalize_output (some "Hello World") = pyLower (pyStrip "Hello World") ∧
    is_empty_or_error (some "   ") = true := by
  refine ⟨normalize_output_light_trim.1 "Hello World" (by decide),
    normalize_output_light_trim.2.2.2.2.2.2.1 "   " (by decide)⟩

/-- C5: mismatched-length inputs always fail with the invalid-input error,
producing no partial result, and equal-length inputs never fail this way. -/
theorem length_mismatch_fails (e g : List String) :
    (e.length ≠ g.length →
      calculate_confusion_matrix_stats e g =
        .error "expected and generated must have the same length") ∧
    (e.length = g.length → ∃ cm, calculate_confusion_matrix_stats e g = .ok cm) := by
  constructor
  · intro h
    simp [calculate_confusion_matrix_stats, h]
  · intro h
    refine ⟨(e.zip g).foldl (fun cm p => tally cm (classify p.1 p.2)) cmZero, ?_⟩
    simp [calculate_confusion_matrix_stats, h]

/-- C5 witness: the failure clause applied at ([1,2,3], [1,2]). -/
theorem length_mismatch_fails_witness :
    calculate_confusion_matrix_stats ["1", "2", "3"] ["1", "2"] =
      .error "expected and generated must have the same length" :=
  (length_mismatch_fails ["1", "2", "3"] ["1", "2"]).1 (by decide)

/-- C6: every derived metric evaluates to exactly 0 whenever its denominator
is zero, never failing, and accuracy always lies in [0, 1]. -/
theorem metrics_zero_denominator (cm : ConfusionMatrix) :
    (total_samples cm = 0 → accuracy cm = 0) ∧
    (cm.true_positives + cm.false_positives = 0 → precision cm = 0) ∧
    (cm.true_positives + cm.false_negatives = 0 → recallOf cm = 0) ∧
    (cm.true_negatives + cm.false_positives = 0 → specificity cm = 0) ∧
    (precision cm + recallOf cm = 0 → f1_score cm = 0) ∧
    0 ≤ accuracy cm ∧ accuracy cm ≤ 1 := by
  refine ⟨fun h => by simp [accuracy, h], fun h => by simp [precision, h],
    fun h => by simp [recallOf, h], fun h => by simp [specificity, h],
    fun h => by simp [f1_score, h], ?_, ?_⟩
  · unfold accuracy
    split
    · norm_num
    · positivity
  · unfold accuracy
    split
    · norm_num
    · rename_i h
      rw [div_le_one (by exact_mod_cast Nat.pos_of_ne_zero h)]
      have hle : cm.true_positives + cm.true_negatives ≤ total_samples cm := by
        unfold total_samples
        omega
      exact_mod_cast hle

/-- C6 witness: the zero-denominator clauses at the all-zero matrix and the
accuracy bounds there. -/
theorem metrics_zero_denominator_witness :
    accuracy cmZero = 0 ∧ precision cmZero = 0 ∧ recallOf cmZero = 0 ∧
    specificity cmZero = 0 ∧ f1_score cmZero = 0 ∧
    0 ≤ accuracy cmZero ∧ accuracy cmZero ≤ 1 := by
  have h := metrics_zero_denominator cmZero
  have hp := h.2.1 rfl
  have hr := h.2.2.1 rfl
  refine ⟨h.1 rfl, hp, hr, h.2.2.2.1 rfl,
    h.2.2.2.2.1 (by rw [hp, hr]; norm_num), h.2.2.2.2.2.1, h.2.2.2.2.2.2⟩

/-- C7: aggregation is the elementwise sum of the four counters, associative
and commutative with the all-zero matrix as identity; the empty response
sequence aggregates to the all-zero matrix whose every derived metric is 0;
and a response lacking a confusion matrix contributes zero to every counter. -/
theorem aggregate_props :
    (∀ a b c : ConfusionMatrix, cmAdd (cmAdd a b) c = cmAdd a (cmAdd b c)) ∧
    (∀ a b : ConfusionMatrix, cmAdd a b = cmAdd b a) ∧
    (∀ a : ConfusionMatrix, cmAdd a cmZero = a ∧ cmAdd cmZero a = a) ∧
    calculate_aggregate_stats [] = cmZero ∧
    accuracy cmZero = 0 ∧ precision cmZero = 0 ∧ recallOf cmZero = 0 ∧
    specificity cmZero = 0 ∧ f1_score cmZero = 0 ∧
    (∀ l1 l2 : List (Option ConfusionMatrix),
      calculate_aggregate_stats (l1 ++ none :: l2) =
        calculate_aggregate_stats (l1 ++ l2)) := by
  refine ⟨?_, ?_, ?_, rfl, by rfl, by rfl, by rfl, by rfl, by norm_num [f1_score, precision, recallOf, cmZero], ?_⟩
  · intro a b c
    simp only [cmAdd, ConfusionMatrix.mk.injEq]
    omega
  · intro a b
    simp only [cmAdd, ConfusionMatrix.mk.injEq]
    omega
  · intro a
    cases a
    constructor <;> simp [cmAdd, cmZero]
  · intro l1 l2
    unfold calculate_aggregate_stats
    rw [List.foldl_append, List.foldl_append, List.foldl_cons]

/-- The closed verdict taxonomy of spec section 3. -/
inductive Verdict where
  | ok
  | runtimeError
  | timeLimitError
  | memoryLimitError
  | executionFailure
deriving DecidableEq

/-- Resource budget for one Case Runner invocation (spec section 3). -/
structure ResourceLimits where
  wall_clock_seconds : ℚ
  memory_megabytes : ℚ
deriving DecidableEq

/-- Raw observable outcome of one spawned process, before classification:
whether the spawn succeeded, elapsed wall-clock time, peak memory, exit code,
captured stdio, and whether an uncaught-exception signature is present on
standard error. -/
structure RawOutcome where
  spawned : Bool
  elapsed_seconds : ℚ
  peak_memory_mb : ℚ
  exit_code : Int
  captured_stdout : String
  captured_stderr : String
  exception_signature : Bool
deriving DecidableEq

/-- One classified execution result (spec section 3). -/
structure ExecutionResult where
  verdict : Verdict
  output : Option String
  error : Option String
  elapsed_seconds : ℚ
  peak_memory_mb : ℚ
deriving DecidableEq

/-- The fixed diagnostic attached to a timeout. -/
def timeLimitMessage : String := "time limit exceeded"

/-- The diagnostic attached to a harness-level spawn failure. -/
def spawnFailureMessage : String := "failed to spawn process"

/-- Modelled from the spec: the classification algorithm of the Process
Executor in utils.py (absent from src/), spec section 4.1: priority order
with first match winning — timeout, then memory, then runtime error, then
spawn failure, else OK with unmodified captured standard output. -/
def classify_outcome (limits : ResourceLimits) (raw : RawOutcome) : ExecutionResult :=
  if limits.wall_clock_seconds < raw.elapsed_seconds then
    ⟨.timeLimitError, none, some timeLimitMessage, raw.elapsed_seconds, raw.peak_memory_mb⟩
  else if limits.memory_megabytes < raw.peak_memory_mb then
    ⟨.memoryLimitError, none, some "memory limit exceeded", raw.elapsed_seconds,
      raw.peak_memory_mb⟩
  else if raw.exit_code ≠ 0 ∨ raw.exception_signature = true then
    ⟨.runtimeError, none, some raw.captured_stderr, raw.elapsed_seconds, raw.peak_memory_mb⟩
  else if raw.spawned = false then
    ⟨.executionFailure, none, some spawnFailureMessage, raw.elapsed_seconds,
      raw.peak_memory_mb⟩
  else
    ⟨.ok, some raw.captured_stdout, none, raw.elapsed_seconds, raw.peak_memory_mb⟩

/-- Modelled from the spec: the Case Runner of utils.py (absent from src/),
spec sections 4.2 and 5: workers run the executor once per case and, as each
case completes — completion order is an arbitrary sequence of indices — the
result is written into a pre-sized buffer at the case's original index. -/
def writeResults (exec : String → ExecutionResult) (cases : List String)
    (order : List Nat) : List (Option ExecutionResult) :=
  order.foldl (fun acc i => acc.set i (some (exec (cases.getD i ""))))
    (List.replicate cases.length none)

/-- Read the buffer after all completions; fails if any slot was never
written. -/
def collectResults : List (Option ExecutionResult) → Option (List ExecutionResult)
  | [] => some []
  | none :: _ => none
  | some r :: rest => (collectResults rest).map (fun t => r :: t)

/-- Modelled from the spec: run_cases (test_code_multi_cases in utils.py,
absent from src/) returns the result buffer in input order once every case
has completed. -/
def run_cases (exec : String → ExecutionResult) (cases : List String)
    (order : List Nat) : Option (List ExecutionResult) :=
  collectResults (writeResults exec cases order)

theorem foldl_set_length {α : Type} (v : Nat → α) (order : List Nat) (init : List α) :
    (order.foldl (fun acc i => acc.set i (v i)) init).length = init.length := by
  induction order generalizing init with
  | nil => rfl
  | cons i rest ih =>
    rw [List.foldl_cons, ih]
    simp

theorem foldl_set_getElem {α : Type} (v : Nat → α) (order : List Nat) (init : List α)
    (j : Nat) :
    (j ∈ order → j < init.length →
      (order.foldl (fun acc i => acc.set i (v i)) init)[j]? = some (v j)) ∧
    (j ∉ order →
      (order.foldl (fun acc i => acc.set i (v i)) init)[j]? = init[j]?) := by
  induction order generalizing init with
  | nil =>
    exact ⟨fun h => absurd h (List.not_mem_nil j), fun _ => rfl⟩
  | cons i rest ih =>
    constructor
    · intro hmem hlt
      rw [List.foldl_cons]
      by_cases hr : j ∈ rest
      · exact (ih (init.set i (v i))).1 hr (by simpa using hlt)
      · have hij : j = i := by
          rcases List.mem_cons.mp hmem with h | h
          · exact h
          · exact absurd h hr
        subst hij
        rw [(ih (init.set j (v j))).2 hr]
        simp [List.getElem?_set, hlt]
    · intro hmem
      rw [List.foldl_cons]
      have hi : i ≠ j := fun h => hmem (h ▸ List.mem_cons_self i rest)
      rw [(ih (init.set i (v i))).2 (fun h => hmem (List.mem_cons_of_mem i h))]
      simp [List.getElem?_set, hi]

theorem writeResults_eq (exec : String → ExecutionResult) (cases : List String)
    (order : List Nat) (h : order.Perm (List.range cases.length)) :
    writeResults exec cases order = (cases.map exec).map some := by
  apply List.ext_getElem?
  intro j
  unfold writeResults
  by_cases hj : j < cases.length
  · have hmem : j ∈ order := h.mem_iff.mpr (List.mem_range.mpr hj)
    rw [(foldl_set_getElem (fun i => some (exec (cases.getD i ""))) order
      (List.replicate cases.length none) j).1 hmem (by simpa using hj)]
    have hd : cases.getD j "" = cases[j] := by
      simp [List.getD_eq_getElem?_getD, List.getElem?_eq_getElem hj]
    rw [hd, List.getElem?_map, List.getElem?_map, List.getElem?_eq_getElem hj]
    rfl
  · have hlen : (order.foldl
        (fun acc i => acc.set i (some (exec (cases.getD i ""))))
        (List.replicate cases.length none)).length ≤ j := by
      rw [foldl_set_length]
      simpa using Nat.le_of_not_lt hj
    rw [List.getElem?_eq_none hlen, List.getElem?_eq_none]
    simpa using Nat.le_of_not_lt hj

theorem collectResults_map_some (l : List ExecutionResult) :
    collectResults (l.map some) = some l := by
  induction l with
  | nil => rfl
  | cons x xs ih => simp [collectResults, ih]

/-- C2: a run whose elapsed wall-clock time exceeds the limit is always
classified TIME_LIMIT_ERROR with empty output and the fixed time-limit
message, regardless of exit code, exception signature, memory use, or spawn
status — the timeout check has priority over every other check. -/
theorem timeout_priority (limits : ResourceLimits) (raw : RawOutcome)
    (h : limits.wall_clock_seconds < raw.elapsed_seconds) :
    classify_outcome limits raw =
      ⟨.timeLimitError, none, some timeLimitMessage,
        raw.elapsed_seconds, raw.peak_memory_mb⟩ := by
  simp [classify_outcome, h]

/-- C2 witness: a 0.5 s limit with a 10 s run that also has a nonzero exit
code and an exception signature is still a timeout. -/
theorem timeout_priority_witness :
    (⟨1/2, 256⟩ : ResourceLimits).wall_clock_seconds <
      (⟨true, 10, 12, 1, "", "Traceback", true⟩ : RawOutcome).elapsed_seconds ∧
    classify_outcome ⟨1/2, 256⟩ ⟨true, 10, 12, 1, "", "Traceback", true⟩ =
      ⟨.timeLimitError, none, some timeLimitMessage, 10, 12⟩ := by
  constructor
  · norm_num
  · exact timeout_priority ⟨1/2, 256⟩ ⟨true, 10, 12, 1, "", "Traceback", true⟩ (by norm_num)

/-- C3: for every completion order (any permutation of the case indices),
run_cases returns one result per case, at the case's original input index;
an empty case sequence forces an empty completion order (no process spawned)
and yields the empty result sequence. -/
theorem run_cases_preserves_order (exec : String → ExecutionResult)
    (cases : List String) (order : List Nat)
    (h : order.Perm (List.range cases.length)) :
    run_cases exec cases order = some (cases.map exec) ∧
    (cases.map exec).length = cases.length ∧
    (∀ i (hi : i < cases.length),
      (cases.map exec).get ⟨i, by simpa using hi⟩ = exec (cases.get ⟨i, hi⟩)) ∧
    (cases = [] → order = [] ∧ run_cases exec cases order = some []) := by
  have hmain : run_cases exec cases order = some (cases.map exec) := by
    unfold run_cases
    rw [writeResults_eq exec cases order h, collectResults_map_some]
  refine ⟨hmain, by simp, ?_, ?_⟩
  · intro i hi
    simp
  · intro hnil
    subst hnil
    have : order = [] := List.Perm.eq_nil (by simpa using h)
    exact ⟨this, by simpa using hmain⟩

/-- C3 witness: three distinguishable cases completing in the order 2, 0, 1
still land at their original indices, and the empty batch yields the empty
result with an empty completion order. -/
theorem run_cases_preserves_order_witness :
    run_cases (fun s => ⟨.ok, some s, none, 0, 0⟩) ["1 2", "3 4", "5 6"] [2, 0, 1] =
      some [⟨.ok, some "1 2", none, 0, 0⟩, ⟨.ok, some "3 4", none, 0, 0⟩,
        ⟨.ok, some "5 6", none, 0, 0⟩] ∧
    run_cases (fun s => ⟨.ok, some s, none, 0, 0⟩) [] [] = some [] := by
  constructor
  · exact (run_cases_preserves_order (fun s => ⟨.ok, some s, none, 0, 0⟩)
      ["1 2", "3 4", "5 6"] [2, 0, 1] (by decide)).1
  · exact ((run_cases_preserves_order (fun s => ⟨.ok, some s, none, 0, 0⟩)
      [] [] (by decide)).2.2.2 rfl).2

example : calculate_confusion_matrix_stats ["1", "2", "3"] ["1", "99", "3"] =
    .ok ⟨2, 0, 1, 0⟩ := by rfl

example : calculate_confusion_matrix_stats ["1", "2", "3"] ["1", "", "3"] =
    .ok ⟨2, 0, 0, 1⟩ := by rfl

example : calculate_confusion_matrix_stats ["", "", ""] ["", "", ""] =
    .ok ⟨0, 3, 0, 0⟩ := by rfl

example : normalize_output (some "  Hello  World  \n") = "hello  world" := by decide

example : is_empty_or_error (some "N/A") = true := by decide

/-- Structural whitespace splitter, Python str.split() with no separator:
the accumulator holds the characters of the current word in reverse. -/
def splitWordsAux (acc : List Char) : List Char → List (List Char)
  | [] => if acc.isEmpty then [] else [acc.reverse]
  | c :: cs =>
    if pyIsSpace c then
      if acc.isEmpty then splitWordsAux [] cs
      else acc.reverse :: splitWordsAux [] cs
    else splitWordsAux (c :: acc) cs

/-- Python str.split() with no separator argument, on strings. -/
def pySplit (s : String) : List String :=
  (splitWordsAux [] s.data).map (fun w => ⟨w⟩)

/-- The character replacement step of normalize_text in prompts.py: newline,
carriage return and tab become spaces. -/
def replWs (c : Char) : Char :=
  if c = '\n' ∨ c = '\r' ∨ c = '\t' then ' ' else c

/-- normalize_text of src/generation/prompts.py on a single string: strip;
if nothing remains return the empty string; otherwise replace newline,
carriage return and tab by spaces, split on whitespace, join the pieces with
single spaces, and lowercase. -/
def normalize_text (s : String) : String :=
  let text_str := pyStrip s
  if text_str = "" then ""
  else pyLower (String.intercalate " " (pySplit ⟨text_str.data.map replWs⟩))

/-- Either a single string or a list of lines — the two input shapes
normalize_text and filter_inputs_already_in_description receive. -/
inductive PyText where
  | str : String → PyText
  | list : List String → PyText
deriving DecidableEq

/-- normalize_text of prompts.py including its list branch, which joins the
items with newlines first. -/
def normalize_pytext : PyText → String
  | .str s => normalize_text s
  | .list l => normalize_text (String.intercalate "\n" l)

/-- The spec's strict-collapse policy stated directly (section 4.3): the
whitespace-delimited words of the text joined by single spaces, lowercased —
equivalently, strip leading/trailing whitespace, collapse every whitespace
run to one space, lowercase. -/
def strictCollapse (s : String) : String :=
  pyLower (String.intercalate " " (pySplit s))

theorem splitWordsAux_all_space (l : List Char) (acc : List Char)
    (h : ∀ c ∈ l, pyIsSpace c = true) :
    splitWordsAux acc l = if acc.isEmpty then [] else [acc.reverse] := by
  induction l generalizing acc with
  | nil => rfl
  | cons c cs ih =>
    have hc : pyIsSpace c = true := h c (List.mem_cons_self c cs)
    have hcs : ∀ x ∈ cs, pyIsSpace x = true := fun x hx => h x (List.mem_cons_of_mem c hx)
    simp only [splitWordsAux, hc, if_true]
    by_cases ha : acc.isEmpty
    · simp [ha, ih [] hcs]
    · simp [ha, ih [] hcs]

theorem splitWordsAux_append_space (t : List Char)
    (ht : ∀ c ∈ t, pyIsSpace c = true) (a acc : List Char) :
    splitWordsAux acc (a ++ t) = splitWordsAux acc a := by
  induction a generalizing acc with
  | nil =>
    rw [List.nil_append, splitWordsAux_all_space t acc ht]
    rfl
  | cons c cs ih =>
    rw [List.cons_append]
    simp only [splitWordsAux]
    by_cases hc : pyIsSpace c
    · simp [hc, ih]
    · simp [hc, ih]

theorem splitWords_dropWhile (l : List Char) :
    splitWordsAux [] (l.dropWhile pyIsSpace) = splitWordsAux [] l := by
  induction l with
  | nil => rfl
  | cons c cs ih =>
    by_cases hc : pyIsSpace c
    · rw [List.dropWhile_cons, if_pos hc, ih]
      simp [splitWordsAux, hc]
    · rw [List.dropWhile_cons, if_neg hc]

theorem pyIsSpace_replWs (c : Char) : pyIsSpace (replWs c) = pyIsSpace c := by
  unfold replWs
  split
  · rename_i h
    rcases h with h | h | h <;> subst h <;> rfl
  · rfl

theorem replWs_of_not_space (c : Char) (h : pyIsSpace c = false) : replWs c = c := by
  unfold replWs
  split
  · rename_i hc
    rcases hc with hc | hc | hc <;> subst hc <;> exact absurd h (by decide)
  · rfl

theorem splitWordsAux_map_repl (l : List Char) (acc : List Char) :
    splitWordsAux acc (l.map replWs) = splitWordsAux acc l := by
  induction l generalizing acc with
  | nil => rfl
  | cons c cs ih =>
    rw [List.map_cons]
    simp only [splitWordsAux, pyIsSpace_replWs]
    by_cases hc : pyIsSpace c
    · simp [hc, ih]
    · have hc' : replWs c = c := replWs_of_not_space c (by
        revert hc
        cases pyIsSpace c <;> simp)
      simp [hc, hc', ih]

theorem splitWords_eq_nil_of_strip (l : List Char) (h : stripChars l = []) :
    splitWordsAux [] l = [] := by
  obtain ⟨a, b, hl, ha, hb⟩ := stripChars_decomp l
  rw [h] at hl
  have hall : ∀ c ∈ l, pyIsSpace c = true := by
    intro c hc
    rw [hl] at hc
    simp only [List.append_nil, List.mem_append] at hc
    rcases hc with hc | hc
    · exact ha c hc
    · exact hb c hc
  rw [splitWordsAux_all_space l [] hall]
  rfl

theorem splitWords_stripChars (l : List Char) :
    splitWordsAux [] (stripChars l) = splitWordsAux [] l := by
  rw [← splitWords_dropWhile l]
  have hb : ∀ c ∈ ((l.dropWhile pyIsSpace).reverse.takeWhile pyIsSpace).reverse,
      pyIsSpace c = true := by
    intro c hc
    rw [List.mem_reverse] at hc
    exact List.mem_takeWhile_imp hc
  conv_rhs => rw [dropWhileRev_decomp pyIsSpace (l.dropWhile pyIsSpace)]
  rw [splitWordsAux_append_space _ hb _ []]
  rfl

theorem splitWordsAux_words (l : List Char) (acc : List Char)
    (hacc : ∀ c ∈ acc, pyIsSpace c = false) :
    ∀ w ∈ splitWordsAux acc l, w ≠ [] ∧ ∀ c ∈ w, pyIsSpace c = false := by
  induction l generalizing acc with
  | nil =>
    intro w hw
    simp only [splitWordsAux] at hw
    by_cases ha : acc.isEmpty
    · simp [ha] at hw
    · rw [if_neg ha] at hw
      simp only [List.mem_singleton] at hw
      subst hw
      refine ⟨?_, ?_⟩
      · simp only [ne_eq, List.reverse_eq_nil_iff]
        intro hnil
        rw [hnil] at ha
        exact ha rfl
      · intro c hc
        rw [List.mem_reverse] at hc
        exact hacc c hc
  | cons c cs ih =>
    intro w hw
    simp only [splitWordsAux] at hw
    by_cases hc : pyIsSpace c
    · rw [if_pos hc] at hw
      by_cases ha : acc.isEmpty
      · rw [if_pos ha] at hw
        exact ih [] (by simp) w hw
      · rw [if_neg ha] at hw
        rcases List.mem_cons.mp hw with hw | hw
        · subst hw
          refine ⟨?_, ?_⟩
          · simp only [ne_eq, List.reverse_eq_nil_iff]
            intro hnil
            rw [hnil] at ha
            exact ha rfl
          · intro x hx
            rw [List.mem_reverse] at hx
            exact hacc x hx
        · exact ih [] (by simp) w hw
    · rw [if_neg hc] at hw
      refine ih (c :: acc) ?_ w hw
      intro x hx
      rcases List.mem_cons.mp hx with rfl | hx
      · revert hc
        cases pyIsSpace x <;> simp
      · exact hacc x hx

theorem normalize_text_eq_strictCollapse (s : String) :
    normalize_text s = strictCollapse s := by
  unfold normalize_text strictCollapse
  by_cases h : pyStrip s = ""
  · rw [if_pos h]
    have h1 : stripChars s.data = [] := by
      have h2 := congrArg String.data h
      simpa [pyStrip] using h2
    have h3 : pySplit s = [] := by
      unfold pySplit
      rw [splitWords_eq_nil_of_strip s.data h1]
      rfl
    rw [h3]
    rfl
  · rw [if_neg h]
    congr 1
    congr 1
    unfold pySplit
    congr 1
    have e1 : (⟨(pyStrip s).data.map replWs⟩ : String).data =
        (stripChars s.data).map replWs := rfl
    rw [e1, splitWordsAux_map_repl, splitWords_stripChars]

/-- C8: strict-collapse normalization (normalize_text in prompts.py) equals
the spec's policy — the whitespace-delimited words of the text joined by
single spaces, lowercased — on every single text; on a sequence of lines it
is that policy applied to the newline-join of the lines; every word the
splitter produces is nonempty and whitespace-free (so joining with single
spaces collapses every internal run and strips both ends); and the example
collapses as specified. -/
theorem normalize_text_strict_collapse :
    (∀ s : String, normalize_text s = strictCollapse s) ∧
    (∀ l : List String,
      normalize_pytext (.list l) = strictCollapse (String.intercalate "\n" l)) ∧
    (∀ s : String, ∀ w ∈ pySplit s, w ≠ "" ∧ ∀ c ∈ w.data, pyIsSpace c = false) ∧
    normalize_text "  Hello  World  \n" = "hello world" := by
  refine ⟨normalize_text_eq_strictCollapse, ?_, ?_, by decide⟩
  · intro l
    exact normalize_text_eq_strictCollapse (String.intercalate "\n" l)
  · intro s w hw
    unfold pySplit at hw
    rcases List.mem_map.mp hw with ⟨w', hw', rfl⟩
    have h := splitWordsAux_words s.data [] (by simp) w' hw'
    refine ⟨?_, h.2⟩
    intro hnil
    exact h.1 (congrArg String.data hnil)

/-- C8 witness: the word-shape clause applied to a concrete split. -/
theorem normalize_text_strict_collapse_witness :
    "hello" ∈ pySplit "  hello  world " ∧ "hello" ≠ "" := by
  have h := normalize_text_strict_collapse.2.2.1 "  hello  world " "hello" (by decide)
  exact ⟨by decide, h.1⟩

/-- Abstract JSON values as produced by Python json.loads. -/
inductive PyJson where
  | null
  | bool (b : Bool)
  | num (q : ℚ)
  | str (s : String)
  | arr (elems : List PyJson)
  | obj (fields : List (String × PyJson))

/-- Python dict.get with a default value. -/
def dictGet (fields : List (String × PyJson)) (k : String) (d : PyJson) : PyJson :=
  match fields.lookup k with
  | some v => v
  | none => d

/-- The dictionary returned by parse_input_output of prompts.py. -/
structure ParsedData where
  inputs : PyJson
  outputs : PyJson
  fn_name : PyJson

/-- The default dictionary returned when parsing fails. -/
def defaultParsedData : ParsedData := ⟨.arr [], .arr [], .str ""⟩

/-- Outcome of a Python call: a returned value, or an uncaught exception. -/
inductive PyOutcome (α : Type) where
  | val : α → PyOutcome α
  | exn : String → PyOutcome α

/-- parse_input_output of src/generation/prompts.py, with the standard
library call json.loads abstracted by its outcome: none when loads raises one
of the caught exceptions (JSONDecodeError for malformed text, TypeError for a
non-string argument), some j when it returns the value j. On a parsed dict
the three keys are read with dict.get defaults; on a parsed non-dict value
the attribute access data.get raises an AttributeError, which the except
clause does not catch. -/
def parse_input_output (loadResult : Option PyJson) : PyOutcome ParsedData :=
  match loadResult with
  | none => .val defaultParsedData
  | some (.obj fields) =>
    .val ⟨dictGet fields "inputs" (.arr []), dictGet fields "outputs" (.arr []),
      dictGet fields "fn_name" (.str "")⟩
  | some _ => .exn "AttributeError"

/-- C9: whenever JSON parsing fails, parse_input_output returns the default
dictionary with empty inputs, outputs and fn_name instead of raising; and on
a successfully parsed JSON object the three keys are read with dict.get,
whose result is the default empty value whenever the key is missing and the
stored value whenever it is present. -/
theorem parse_input_output_defaults :
    parse_input_output none = .val defaultParsedData ∧
    defaultParsedData = ⟨.arr [], .arr [], .str ""⟩ ∧
    (∀ fields,
      parse_input_output (some (.obj fields)) =
        .val ⟨dictGet fields "inputs" (.arr []), dictGet fields "outputs" (.arr []),
          dictGet fields "fn_name" (.str "")⟩) ∧
    (∀ fields (k : String) (d : PyJson),
      fields.lookup k = none → dictGet fields k d = d) ∧
    (∀ fields (k : String) (d v : PyJson),
      fields.lookup k = some v → dictGet fields k d = v) := by
  refine ⟨rfl, rfl, fun fields => rfl, ?_, ?_⟩
  · intro fields k d h
    simp [dictGet, h]
  · intro fields k d v h
    simp [dictGet, h]

/-- C9 witness: the object clause and the missing-key clause applied to the
empty object, yielding the same dictionary as a parse failure. -/
theorem parse_input_output_defaults_witness :
    dictGet [] "inputs" (.arr []) = .arr [] ∧
    parse_input_output (some (.obj [])) = .val defaultParsedData := by
  refine ⟨parse_input_output_defaults.2.2.2.1 [] "inputs" (.arr []) rfl, ?_⟩
  rw [parse_input_output_defaults.2.2.1 []]
  rfl

/-- Boolean test that the first list leads the second (is an initial run of
it), on characters. -/
def leadsWith : List Char → List Char → Bool
  | [], _ => true
  | _ :: _, [] => false
  | a :: as, b :: bs => (a == b) && leadsWith as bs

/-- Boolean test that needle occurs contiguously inside hay — the Python in
operator on strings, character-level. -/
def occursIn (needle : List Char) : List Char → Bool
  | [] => needle.isEmpty
  | c :: rest => leadsWith needle (c :: rest) || occursIn needle rest

/-- Python substring containment: needle in hay. -/
def strContains (hay needle : String) : Bool := occursIn needle.data hay.data

/-- The duplicate test of one iteration of
filter_inputs_already_in_description (prompts.py): the four detection
methods, combined in their short-circuit order. -/
def isDuplicateInput (descNorm : String) (samplePairs : List (String × String))
    (testOutputs : Option (List PyText)) (i : Nat) (inp : PyText)
    (inpNorm : String) : Bool :=
  strContains descNorm inpNorm ||
  samplePairs.any (fun p =>
    let sn := normalize_text p.1
    (sn != "") && strContains sn inpNorm) ||
  (match inp with
   | .str _ => false
   | .list lines =>
     decide (lines.length ≤ 2) &&
     lines.any (fun line =>
       let ln := normalize_text line
       (ln != "") && decide (3 < ln.length) && strContains descNorm ln)) ||
  (match testOutputs with
   | none => false
   | some outs =>
     (!outs.isEmpty) && decide (i < outs.length) &&
     (let outNorm := normalize_pytext (outs.getD i (.str ""))
      (outNorm != "") && strContains descNorm outNorm &&
      samplePairs.any (fun p =>
        let sn := normalize_text p.1
        let son := normalize_text p.2
        (sn != "") && (son != "") && strContains sn inpNorm &&
          strContains son outNorm)))

/-- The main loop of filter_inputs_already_in_description: index i walks the
inputs; an input whose normalization is empty is skipped outright; a
non-duplicate is kept, together with the output at the same index when
outputs are being tracked. -/
def filterInputsLoop (descNorm : String) (samplePairs : List (String × String))
    (testOutputs : Option (List PyText)) : Nat → List PyText → List PyText × List PyText
  | _, [] => ([], [])
  | i, inp :: rest =>
    let r := filterInputsLoop descNorm samplePairs testOutputs (i + 1) rest
    let inpNorm := normalize_pytext inp
    if inpNorm = "" then r
    else if isDuplicateInput descNorm samplePairs testOutputs i inp inpNorm then r
    else
      (inp :: r.1,
       match testOutputs with
       | some outsList =>
         if (!outsList.isEmpty) && decide (i < outsList.length) then
           outsList.getD i (.str "") :: r.2
         else r.2
       | none => r.2)

/-- filter_inputs_already_in_description of src/generation/prompts.py, with
the regex-based sample-pair extraction find_sample_input_output_pairs passed
in as the samplePairs parameter (the verified properties hold for every value
of it). The outputs component is none exactly where Python returns None,
following Python truthiness: a missing or empty test_outputs list means no
outputs are tracked. -/
def filter_inputs_already_in_description (samplePairs : List (String × String))
    (problem_description : String) (test_inputs : List PyText)
    (test_outputs : Option (List PyText)) : List PyText × Option (List PyText) :=
  if test_inputs.isEmpty then
    ([],
     match test_outputs with
     | some _ => some []
     | none => none)
  else
    let descNorm := normalize_text problem_description
    let r := filterInputsLoop descNorm samplePairs test_outputs 0 test_inputs
    (r.1,
     match test_outputs with
     | some l => if !l.isEmpty then some r.2 else none
     | none => none)

theorem filterInputsLoop_sound (descNorm : String)
    (samplePairs : List (String × String)) (outs : Option (List PyText))
    (l : List PyText) (i : Nat) :
    (filterInputsLoop descNorm samplePairs outs i l).1.Sublist l ∧
    ∀ x ∈ (filterInputsLoop descNorm samplePairs outs i l).1,
      normalize_pytext x ≠ "" := by
  induction l generalizing i with
  | nil => exact ⟨List.Sublist.refl [], by simp [filterInputsLoop]⟩
  | cons inp rest ih =>
    simp only [filterInputsLoop]
    by_cases h1 : normalize_pytext inp = ""
    · rw [if_pos h1]
      exact ⟨(ih (i + 1)).1.cons inp, (ih (i + 1)).2⟩
    · rw [if_neg h1]
      by_cases h2 : isDuplicateInput descNorm samplePairs outs i inp
          (normalize_pytext inp) = true
      · rw [if_pos h2]
        exact ⟨(ih (i + 1)).1.cons inp, (ih (i + 1)).2⟩
      · rw [if_neg h2]
        refine ⟨(ih (i + 1)).1.cons₂ inp, ?_⟩
        intro x hx
        rcases List.mem_cons.mp hx with rfl | hx
        · exact h1
        · exact (ih (i + 1)).2 x hx

/-- C10: the filtered inputs returned by filter_inputs_already_in_description
are always an order-preserving subsequence of the given test inputs, and
every input whose strict-collapse normalization is the empty string is
omitted (no returned element normalizes to the empty string), for every
description, extracted sample-pair list, and outputs argument. -/
theorem filter_inputs_subsequence (samplePairs : List (String × String))
    (desc : String) (inputs : List PyText) (outs : Option (List PyText)) :
    (filter_inputs_already_in_description samplePairs desc inputs outs).1.Sublist inputs ∧
    ∀ x ∈ (filter_inputs_already_in_description samplePairs desc inputs outs).1,
      normalize_pytext x ≠ "" := by
  unfold filter_inputs_already_in_description
  by_cases h : inputs.isEmpty
  · rw [if_pos h]
    exact ⟨List.nil_sublist inputs, by simp⟩
  · rw [if_neg h]
    exact filterInputsLoop_sound (normalize_text desc) samplePairs outs inputs 0

/-- C10 witness: at a description containing neither input, the whitespace
input is still dropped while the other survives as a subsequence element. -/
theorem filter_inputs_subsequence_witness :
    (filter_inputs_already_in_description [] "desc" [.str "zq", .str "   "] none).1.Sublist
      [PyText.str "zq", PyText.str "   "] ∧
    normalize_pytext (.str "zq") ≠ "" := by
  have h := filter_inputs_subsequence [] "desc" [.str "zq", .str "   "] none
  exact ⟨h.1, h.2 (.str "zq") (by decide)⟩

end Tcg
